import Mathlib

/-!
# Verification of the phishing-URL checker (`Code.py`)

A shallow embedding of the repository's single source file `src/Code.py`
and of the parts of the Python standard library and third-party libraries
it calls (`urllib.parse.urlparse`, `difflib.SequenceMatcher`,
`tldextract.extract`, `str.encode("idna")`, `re.search`), together with
theorems settling the frozen claims about the program.

Modelling conventions:
* Python strings are Lean `String`s; most computation is on `List Char`.
* Python floats (`difflib` ratios) are modelled by the exact rational
  values they approximate (unreduced fractions of naturals, `Frac`);
  the program only ever compares ratios of small integers.
* Fallible Python code (the `ValueError` raised inside
  `urllib.parse.urlsplit`) is modelled with `Except`.
* `str.lower` is modelled by the ASCII case map (the Unicode special
  casings, e.g. the Kelvin sign, are not modelled); `\d` in the regular
  expression is modelled by ASCII digits.  The trigger words, safe domains
  and every concrete input appearing in a claim are ASCII.
-/

/-! ## Python `str.strip` (Unicode whitespace) -/

/-- The character set stripped by Python's `str.strip()`:
characters with the Unicode whitespace bidirectional property. -/
def isPySpace (c : Char) : Bool :=
  let n := c.toNat
  (decide (0x09 ≤ n) && decide (n ≤ 0x0d)) || n == 0x20 ||
  (decide (0x1c ≤ n) && decide (n ≤ 0x1f)) || n == 0x85 || n == 0xa0 ||
  n == 0x1680 || (decide (0x2000 ≤ n) && decide (n ≤ 0x200a)) ||
  n == 0x2028 || n == 0x2029 || n == 0x202f || n == 0x205f || n == 0x3000

def pyStripList (l : List Char) : List Char :=
  ((l.dropWhile isPySpace).reverse.dropWhile isPySpace).reverse

/-- Python `u.strip()`. -/
def pyStrip (s : String) : String := String.mk (pyStripList s.data)

/-- Python `s.lower()` (ASCII case map; see module comment). -/
def pyLower (s : String) : String := String.mk (s.data.map Char.toLower)

/-- Python's substring test `needle in hay` — prefix part. -/
def matchFront : List Char → List Char → Bool
  | [], _ => true
  | _ :: _, [] => false
  | a :: as, b :: bs => a == b && matchFront as bs

/-- Python's substring test `needle in hay`. -/
def matchInside (n : List Char) : List Char → Bool
  | [] => matchFront n []
  | c :: t => matchFront n (c :: t) || matchInside n t

/-- Python `needle in hay` on strings. -/
def strContains (hay needle : String) : Bool := matchInside needle.data hay.data

/-- Count of a character in a list (Python `u.count(c)`). -/
def countChar (c : Char) : List Char → Nat
  | [] => 0
  | x :: r => (if x == c then 1 else 0) + countChar c r

/-- `l.any (· == c)` as one definition (Python `c in s`). -/
def hasChar (c : Char) (l : List Char) : Bool := l.any (· == c)

/-! ## Model of `urllib.parse.urlparse`

Follows CPython's `urlsplit`/`urlparse`:
strip leading C0-control-or-space characters, remove tab/CR/LF anywhere,
split off a scheme when the prefix before the first `:` is a valid scheme
(lower-cased), split the netloc after `//` up to `/?#` (raising
`ValueError` on an unbalanced bracket), split fragment then query, and
split `;`-parameters out of the path for schemes that use them.
The bracketed-host validation added in CPython 3.11 and the NFKC netloc
check (both only reachable from inputs no claim touches) are not
modelled. -/

def isC0OrSpace (c : Char) : Bool := decide (c.toNat ≤ 0x20)

def isUnsafeUrlByte (c : Char) : Bool := c == '\t' || c == '\r' || c == '\n'

/-- CPython `scheme_chars`. -/
def isSchemeChar (c : Char) : Bool :=
  c.isAlpha || c.isDigit || c == '+' || c == '-' || c == '.'

/-- Index of the first character satisfying `p`, if any. -/
def firstIdx (p : Char → Bool) : List Char → Option Nat
  | [] => none
  | c :: r => if p c then some 0 else (firstIdx p r).map (· + 1)

/-- CPython scheme recognition: `i = url.find(':')`; the prefix must be
nonempty, start with an ASCII letter, and consist of scheme characters;
the scheme is lower-cased.  Returns `(scheme, rest)`. -/
def splitScheme (l : List Char) : List Char × List Char :=
  match firstIdx (· == ':') l with
  | none => ([], l)
  | some i =>
    if 0 < i ∧ (l.headD ' ').isAlpha ∧ (l.take i).all isSchemeChar then
      ((l.take i).map Char.toLower, l.drop (i + 1))
    else ([], l)

def isNetlocDelim (c : Char) : Bool := c == '/' || c == '?' || c == '#'

/-- CPython `_splitnetloc` (after the leading `//` has been dropped). -/
def splitNetloc (l : List Char) : List Char × List Char :=
  (l.takeWhile (fun c => !isNetlocDelim c), l.dropWhile (fun c => !isNetlocDelim c))

/-- Split on the first occurrence of `t`: `(before, after)`; if `t` is
absent the whole list is `before` (CPython splits only when present,
which coincides with this). -/
def splitOnFirst (t : Char) (l : List Char) : List Char × List Char :=
  (l.takeWhile (· ≠ t), (l.dropWhile (· ≠ t)).drop 1)

/-- CPython `uses_params`. -/
def usesParams : List (List Char) :=
  ["", "ftp", "hdl", "prospero", "http", "imap", "https", "shttp", "rtsp",
   "rtspu", "sip", "sips", "mms", "sftp", "tel"].map String.data

/-- Index of the last occurrence of `t` (there is one in our only caller). -/
def lastIdxOf (t : Char) (l : List Char) : Nat :=
  l.length - 1 - (firstIdx (· == t) l.reverse).getD (l.length - 1)

/-- First index `≥ start` of `t`. -/
def firstIdxFrom (t : Char) (l : List Char) (start : Nat) : Option Nat :=
  (firstIdx (· == t) (l.drop start)).map (· + start)

/-- CPython `_splitparams` on the path.  The `i = -1` slicing corner
(path with no `/` and no `;`) is modelled literally with Python's
`url[:-1], url[0:]`; it is unreachable because the caller guards on
`';' in url`. -/
def splitparams (p : List Char) : List Char × List Char :=
  if hasChar '/' p then
    match firstIdxFrom ';' p (lastIdxOf '/' p) with
    | none => (p, [])
    | some i => (p.take i, p.drop (i + 1))
  else
    match firstIdx (· == ';') p with
    | none => (p.dropLast, p)
    | some i => (p.take i, p.drop (i + 1))

structure PyParse where
  scheme : List Char
  netloc : List Char
  path : List Char
  params : List Char
  query : List Char
  fragment : List Char
deriving DecidableEq, Repr

/-- Model of `urllib.parse.urlparse` (6-tuple).  Raises (as `.error`)
exactly the `ValueError("Invalid IPv6 URL")` of `urlsplit` on an
unbalanced bracket in the netloc. -/
def pyUrlparse (u : String) : Except String PyParse :=
  let l := (u.data.dropWhile isC0OrSpace).filter (fun c => !isUnsafeUrlByte c)
  let sr := splitScheme l
  let scheme := sr.1
  let nr :=
    if sr.2.take 2 = ['/', '/'] then splitNetloc (sr.2.drop 2) else ([], sr.2)
  let netloc := nr.1
  if (hasChar '[' netloc && !hasChar ']' netloc) ||
     (hasChar ']' netloc && !hasChar '[' netloc) then
    .error "Invalid IPv6 URL"
  else
    let fr := splitOnFirst '#' nr.2
    let qr := splitOnFirst '?' fr.1
    let pp :=
      if usesParams.contains scheme && hasChar ';' qr.1 then splitparams qr.1
      else (qr.1, [])
    .ok ⟨scheme, netloc, pp.1, pp.2, qr.2, fr.2⟩

/-- `normalize_url` from `Code.py`: parse, default a missing scheme to
`http`, and rebuild `f"{parsed.scheme}://{parsed.netloc}{parsed.path}"`. -/
def normalize_url (u : String) : Except String String :=
  match pyUrlparse u with
  | .error e => .error e
  | .ok p =>
    if p.scheme = [] then
      match pyUrlparse ("http://" ++ u) with
      | .error e => .error e
      | .ok p' => .ok (String.mk (p'.scheme ++ ':' :: '/' :: '/' :: (p'.netloc ++ p'.path)))
    else .ok (String.mk (p.scheme ++ ':' :: '/' :: '/' :: (p.netloc ++ p.path)))

/-! ## Constant lists from `Code.py` -/

def SAFE_DOMAINS : List String :=
  ["google.com", "facebook.com", "microsoft.com", "apple.com",
   "amazon.com", "paypal.com", "github.com", "linkedin.com",
   "twitter.com"]

def TRICKY_WORDS : List String :=
  ["login", "secure", "account", "update", "verify", "signin",
   "auth", "webscr", "bank", "bonus", "reset", "free", "claim",
   "activity", "security", "confirm", "submit", "support"]

/-! ## Signal detectors from `Code.py` -/

/-- Length of the maximal run of digits at the head of the list. -/
def leadingDigits : List Char → Nat
  | [] => 0
  | c :: r => if c.isDigit then leadingDigits r + 1 else 0

/-- One `\d{1,3}\.` group of the IP regex, matched at the head of the
list.  (Backtracking cannot choose a different digit count: the group is
followed by `.` which is not a digit.) -/
def eatGroupDot (l : List Char) : Option (List Char) :=
  if 1 ≤ leadingDigits l ∧ leadingDigits l ≤ 3 then
    match l.drop (leadingDigits l) with
    | '.' :: r => some r
    | _ => none
  else none

/-- `(?:\d{1,3}\.){3}\d{1,3}` matched at the head of the list (nothing
anchors the end, so trailing characters are ignored). -/
def ipQuadAt (t : List Char) : Bool :=
  match eatGroupDot t with
  | none => false
  | some t1 =>
    match eatGroupDot t1 with
    | none => false
    | some t2 =>
      match eatGroupDot t2 with
      | none => false
      | some t3 => decide (1 ≤ leadingDigits t3)

/-- `http[s]?://(?:\d{1,3}\.){3}\d{1,3}` matched at the head of the list. -/
def matchSchemeIpAt (l : List Char) : Bool :=
  (decide (l.take 7 = "http://".data) && ipQuadAt (l.drop 7)) ||
  (decide (l.take 8 = "https://".data) && ipQuadAt (l.drop 8))

/-- `re.search`: try the pattern at every position. -/
def searchIp : List Char → Bool
  | [] => false
  | c :: rest => matchSchemeIpAt (c :: rest) || searchIp rest

/-- `looks_like_ip` from `Code.py`:
`re.search(r"http[s]?://(?:\d{1,3}\.){3}\d{1,3}", u) is not None`. -/
def looks_like_ip (u : String) : Bool := searchIp u.data

/-- `find_bad_words` from `Code.py`. -/
def find_bad_words (u : String) : List String :=
  TRICKY_WORDS.filter (fun w => strContains (pyLower u) w)

/-- `too_many_symbols` from `Code.py`. -/
def too_many_symbols (u : String) : Bool :=
  decide (5 < countChar '-' u.data) || decide (1 < countChar '@' u.data) ||
  decide (5 < countChar '=' u.data)

/-- `is_secure` from `Code.py`: `u.lower().startswith("https://")`. -/
def is_secure (u : String) : Bool := matchFront "https://".data (pyLower u).data

/-! ## Model of `tldextract.extract`

`tldextract` splits the host of a URL into subdomain / registrable
domain / public suffix using the public-suffix list.  The bundled PSL
snapshot is modelled by the finite subset of plain rules relevant to
this development; the wildcard/exception rules and the IDNA dot
variants are not exercised by any claim. -/

/-- Index of the first `//`, if any (`url.find("//")`). -/
def findDoubleSlash : List Char → Option Nat
  | '/' :: '/' :: _ => some 0
  | _ :: r => (findDoubleSlash r).map (· + 1)
  | [] => none

/-- `tldextract.remote._schemeless_url`. -/
def schemelessUrl (l : List Char) : List Char :=
  match findDoubleSlash l with
  | none => l
  | some 0 => l.drop 2
  | some i =>
    if i < 2 then l
    else if l.getD (i - 1) ' ' ≠ ':' then l
    else if (l.take (i - 1)).all isSchemeChar then l.drop (i + 2)
    else l

/-- Part after the last `@` (`s.rpartition("@")[-1]`). -/
def afterLastAt (l : List Char) : List Char :=
  (l.reverse.takeWhile (· ≠ '@')).reverse

/-- The dot characters `tldextract` strips from the right of a host. -/
def isDotLike (c : Char) : Bool :=
  c == '.' || c == '。' || c == '．' || c == '｡'

/-- `tldextract.remote.lenient_netloc`. -/
def lenientNetloc (l : List Char) : List Char :=
  let afterUser :=
    afterLastAt ((((schemelessUrl l).takeWhile (· ≠ '/')).takeWhile
      (· ≠ '?')).takeWhile (· ≠ '#'))
  let bracket :=
    if afterUser.headD ' ' = '[' ∧ hasChar ']' afterUser then
      (afterUser.takeWhile (· ≠ ']')) ++ [']']
    else
      pyStripList (afterUser.takeWhile (· ≠ ':'))
  (bracket.reverse.dropWhile isDotLike).reverse

/-- Numeric value of a digit string. -/
def natOfDigits : List Char → Nat → Nat
  | [], acc => acc
  | c :: r, acc => natOfDigits r (acc * 10 + (c.toNat - '0'.toNat))

/-- One group of `tldextract`'s value-checked IPv4 regexp:
`25[0-5]|2[0-4][0-9]|[01]?[0-9][0-9]?`, which matches exactly the digit
strings of length 1–3 with value at most 255. -/
def ipGroupOk (g : List Char) : Bool :=
  decide (1 ≤ g.length) && decide (g.length ≤ 3) && g.all Char.isDigit &&
  decide (natOfDigits g 0 ≤ 255)

/-- Split on `.` keeping empty fields (Python `s.split(".")`). -/
def splitOnDot : List Char → List (List Char)
  | [] => [[]]
  | c :: r =>
    if c = '.' then [] :: splitOnDot r
    else
      match splitOnDot r with
      | [] => [[c]]
      | g :: gs => (c :: g) :: gs

/-- `tldextract.remote.looks_like_ip`: full match of the value-checked
dotted-quad pattern. -/
def tldxLooksLikeIp (l : List Char) : Bool :=
  match splitOnDot l with
  | [a, b, c, d] => ipGroupOk a && ipGroupOk b && ipGroupOk c && ipGroupOk d
  | _ => false

/-- The public-suffix rules used by this development (label sequences,
longest match wins), a subset of `tldextract`'s bundled snapshot. -/
def MODEL_PSL : List (List String) :=
  [["com"], ["net"], ["org"], ["io"], ["edu"], ["gov"], ["uk"], ["co", "uk"]]

def pslMem (labels : List (List Char)) : Bool :=
  MODEL_PSL.contains (labels.map (fun lab => String.mk (lab.map Char.toLower)))

/-- Number of leading labels that are not part of the longest matching
public suffix (`labels.length` when no suffix matches). -/
def suffixIndexAux (i : Nat) : List (List Char) → Nat
  | [] => i
  | lab :: r => if pslMem (lab :: r) then i else suffixIndexAux (i + 1) r

/-- Join labels with dots. -/
def joinDots (labels : List (List Char)) : String :=
  String.mk (List.intercalate ['.'] labels)

structure ExtractResult where
  subdomain : String
  domain : String
  suffix : String
deriving DecidableEq, Repr

/-- Model of `tldextract.extract`. -/
def tldx_extract (u : String) : ExtractResult :=
  let netloc := (lenientNetloc u.data).map (fun c => if isDotLike c then '.' else c)
  if tldxLooksLikeIp netloc then ⟨"", String.mk netloc, ""⟩
  else
    let labels := splitOnDot netloc
    let si := suffixIndexAux 0 labels
    let rest := labels.take si
    ⟨joinDots rest.dropLast, String.mk (rest.getLastD []), joinDots (labels.drop si)⟩

/-- `count_subs` from `Code.py`:
`[s for s in parts.subdomain.split(".") if s.strip() != ""]`. -/
def count_subs (u : String) : Nat :=
  ((splitOnDot (tldx_extract u).subdomain.data).filter
    (fun lab => pyStripList lab ≠ [])).length

/-- Python `str.encode("idna")`, ASCII fast path: an all-ASCII name is
returned unchanged when every non-final label has length 1–63 and the
final label has length at most 63; the empty string encodes to itself;
otherwise the codec raises (`none`).  The punycode branch for non-ASCII
names is not modelled (treated as a raise, which `get_domain_ascii`
turns into its fallback); no claim involves a non-ASCII domain. -/
def idnaFastPath (s : List Char) : Option (List Char) :=
  if s = [] then some []
  else if s.all (fun c => decide (c.toNat < 128)) then
    let labels := splitOnDot s
    if labels.dropLast.all (fun lab => decide (0 < lab.length) && decide (lab.length < 64)) &&
       decide ((labels.getLastD []).length < 64) then
      some s
    else none
  else none

/-- `get_domain_ascii` from `Code.py`. -/
def get_domain_ascii (u : String) : String :=
  let parts := tldx_extract u
  let domainAscii :=
    match idnaFastPath parts.domain.data with
    | some a => String.mk a
    | none => parts.domain
  domainAscii ++ "." ++ parts.suffix

/-! ## Model of `difflib.SequenceMatcher(None, a, b).ratio()`

`ratio()` is `2 * M / (len(a) + len(b))` where `M` is the total size of
the matching blocks found by the recursive longest-matching-block
algorithm.  `autojunk` only takes effect for `len(b) >= 200` and the
junk-extension loops of `find_longest_match` are no-ops without junk, so
neither is modelled; floats are modelled as exact rationals. -/

/-- Ascending positions of `c` in `b` (the `b2j` table of `difflib`). -/
def charPositions (c : Char) : List Char → Nat → List Nat
  | [], _ => []
  | x :: r, i =>
    if x == c then i :: charPositions c r (i + 1) else charPositions c r (i + 1)

/-- Lookup in the `j2len` association list (Python `dict.get(j, 0)`). -/
def alookup (j : Nat) : List (Nat × Nat) → Nat
  | [] => 0
  | (k, v) :: r => if k = j then v else alookup j r

/-- Inner loop of `find_longest_match`: walk the positions of `a[i]` in
`b` (ascending), skip those below `blo` (`continue`), stop at `bhi`
(`break`), extend runs via the previous row `old`, and update the best
triple on a strictly longer run. -/
def flmInner (i blo bhi : Nat) (old : List (Nat × Nat)) :
    List Nat → (Nat × Nat × Nat) → List (Nat × Nat) → (Nat × Nat × Nat) × List (Nat × Nat)
  | [], st, acc => (st, acc)
  | j :: rest, st, acc =>
    if j < blo then flmInner i blo bhi old rest st acc
    else if bhi ≤ j then (st, acc)
    else
      let k := (if j = 0 then 0 else alookup (j - 1) old) + 1
      let st' := if st.2.2 < k then (i + 1 - k, j + 1 - k, k) else st
      flmInner i blo bhi old rest st' ((j, k) :: acc)

/-- Outer loop of `find_longest_match` over `i ∈ [alo, ahi)`. -/
def flmOuter (a b : List Char) (blo bhi : Nat) :
    List Nat → (Nat × Nat × Nat) → List (Nat × Nat) → Nat × Nat × Nat
  | [], st, _ => st
  | i :: rest, st, old =>
    let step := flmInner i blo bhi old (charPositions (a.getD i ' ') b 0) st []
    flmOuter a b blo bhi rest step.1 step.2

/-- Ascending list `[s, s+1, …, s+n-1]`. -/
def natRange (s n : Nat) : List Nat :=
  match n with
  | 0 => []
  | m + 1 => s :: natRange (s + 1) m

/-- `SequenceMatcher.find_longest_match` on the window
`a[alo:ahi] × b[blo:bhi]`: the longest matching block `(i, j, size)`,
earliest (smallest `i`, then smallest `j`) on ties. -/
def findLongestMatch (a b : List Char) (alo ahi blo bhi : Nat) : Nat × Nat × Nat :=
  flmOuter a b blo bhi (natRange alo (ahi - alo)) (alo, blo, 0) []

/-- Total size of the matching blocks of `get_matching_blocks`,
computed with the same recursive decomposition (fuel bounds the
recursion depth; each level strictly shrinks the window, so
`(ahi - alo) + (bhi - blo) + 1` fuel is always enough). -/
def matchesIn (a b : List Char) : Nat → Nat → Nat → Nat → Nat → Nat
  | 0, _, _, _, _ => 0
  | fuel + 1, alo, ahi, blo, bhi =>
    let m := findLongestMatch a b alo ahi blo bhi
    if m.2.2 = 0 then 0
    else
      matchesIn a b fuel alo m.1 blo m.2.1 + m.2.2 +
        matchesIn a b fuel (m.1 + m.2.2) ahi (m.2.1 + m.2.2) bhi

/-- Total matched size `M` for the full sequences. -/
def totalMatches (a b : List Char) : Nat :=
  matchesIn a b (a.length + b.length + 1) 0 a.length 0 b.length

/-- A Python float holding a similarity ratio, modelled as the exact
(unreduced) fraction `num / den` of natural numbers it was computed
from; `den` is always positive.  Comparisons are by cross
multiplication, i.e. by exact rational value. -/
structure Frac where
  num : Nat
  den : Nat
deriving DecidableEq, Repr

/-- Value order on ratio fractions: `x < y`. -/
def Frac.lt (x y : Frac) : Prop := x.num * y.den < y.num * x.den

/-- Value order on ratio fractions: `x ≤ y`. -/
def Frac.le (x y : Frac) : Prop := x.num * y.den ≤ y.num * x.den

instance (x y : Frac) : Decidable (Frac.lt x y) := Nat.decLt _ _

instance (x y : Frac) : Decidable (Frac.le x y) := Nat.decLe _ _

/-- `SequenceMatcher(None, a, b).ratio()` as an exact fraction;
`_calculate_ratio` returns 1 when both sequences are empty. -/
def simRatio (a b : String) : Frac :=
  if a.data.length + b.data.length = 0 then ⟨1, 1⟩
  else ⟨2 * totalMatches a.data b.data, a.data.length + b.data.length⟩

/-! ## `closest_real_site` from `Code.py` -/

/-- One iteration of the `for legit in SAFE_DOMAINS` loop:
`if sim > top_score: top_score, closest = sim, legit`. -/
def closestStep (domain : String) (acc : Frac × Option String) (legit : String) :
    Frac × Option String :=
  let sim := simRatio domain legit
  if Frac.lt acc.1 sim then (sim, some legit) else acc

/-- The loop of `closest_real_site`, generalized over the safe-domain
list it iterates (the source iterates the constant `SAFE_DOMAINS`);
starts from `top_score = 0`, `closest = None`. -/
def closestOverList (domain : String) (l : List String) : Frac × Option String :=
  l.foldl (closestStep domain) (⟨0, 1⟩, none)

/-- `closest_real_site` from `Code.py`. -/
def closest_real_site (u : String) : Frac × Option String :=
  closestOverList (get_domain_ascii u) SAFE_DOMAINS

/-! ## `check_url` from `Code.py` -/

structure Verdict where
  original : String
  ip_in_url : Bool
  bad_words : List String
  crazy_chars : Bool
  https : Bool
  len : Nat
  subs : Nat
  closest_match : Frac × Option String
  score : Nat
  label : String
deriving DecidableEq, Repr

/-- The result of one `check_url` call: the `{"error": …}` dictionary,
a full verdict dictionary, or an uncaught Python exception escaping the
function (modelled explicitly; nothing in `check_url` catches the
`ValueError` that `urlparse` can raise). -/
inductive CheckResult where
  | inputError (msg : String)
  | verdict (v : Verdict)
  | raised (msg : String)
deriving DecidableEq, Repr

/-- The label thresholds of `check_url`. -/
def labelOf (score : Nat) : String :=
  if 8 ≤ score then "⚠️ HIGH RISK: Probably PHISHING"
  else if 4 ≤ score then "❗ Suspicious"
  else "✅ Seems OK"

/-- The `+4` similarity rule `ratio > 0.85 and legit not in u`.  When
`legit` is `None` the ratio is `0`, so Python's short-circuit `and`
never evaluates `None not in u`; the `none` branch is therefore
arbitrary and set to `False`. -/
def similaritySignal (u : String) (ratio : Frac) (legit : Option String) : Prop :=
  Frac.lt ⟨85, 100⟩ ratio ∧
    match legit with
    | some s => ¬ strContains u s
    | none => False

instance (u ratio legit) : Decidable (similaritySignal u ratio legit) := by
  unfold similaritySignal
  cases legit <;> exact inferInstance

/-- The verdict dictionary of `check_url` after the signal entries have
been inserted and before `"score"` and `"label"` are set (those two
entries, not yet present in the Python dict at that point, are held by
placeholders `0` and `""`). -/
def baseVerdict (u : String) : Verdict :=
  ⟨u, looks_like_ip u, find_bad_words u, too_many_symbols u, is_secure u,
   u.length, count_subs u, closest_real_site u, 0, ""⟩

/-- The scoring block of `check_url`, reading the dict entries exactly
as the source does (`verdict["ip_in_url"]`, …, `ratio`, `legit`). -/
def ruleSum (v : Verdict) : Nat :=
  (if v.ip_in_url then 5 else 0) + (if v.bad_words ≠ [] then 3 else 0) +
  (if ¬ v.https then 2 else 0) + (if v.crazy_chars then 2 else 0) +
  (if 100 < v.len then 2 else 0) + (if 3 < v.subs then 3 else 0) +
  (if similaritySignal v.original v.closest_match.1 v.closest_match.2
    then 4 else 0)

/-- The verdict dictionary built by the main body of `check_url` from
the normalized URL `u`. -/
def mkVerdict (u : String) : Verdict :=
  let b := baseVerdict u
  { b with score := ruleSum b, label := labelOf (ruleSum b) }

/-- `check_url` from `Code.py`. -/
def check_url (u0 : String) : CheckResult :=
  let u1 := pyStrip u0
  if u1 = "" then .inputError "No URL entered... try again."
  else
    match normalize_url u1 with
    | .error e => .raised e
    | .ok u => .verdict (mkVerdict u)

section

attribute [local irreducible] closest_real_site count_subs looks_like_ip
  find_bad_words too_many_symbols is_secure

/-- The score field of a verdict is the seven-rule sum over its own
fields (setting `score` and `label` leaves the signal fields alone). -/
lemma mkVerdict_score_eq (w : String) :
    (mkVerdict w).score =
      (if (mkVerdict w).ip_in_url then 5 else 0) +
      (if (mkVerdict w).bad_words ≠ [] then 3 else 0) +
      (if ¬ (mkVerdict w).https then 2 else 0) +
      (if (mkVerdict w).crazy_chars then 2 else 0) +
      (if 100 < (mkVerdict w).len then 2 else 0) +
      (if 3 < (mkVerdict w).subs then 3 else 0) +
      (if similaritySignal (mkVerdict w).original (mkVerdict w).closest_match.1
          (mkVerdict w).closest_match.2 then 4 else 0) :=
  @Eq.refl Nat (ruleSum (baseVerdict w))

/-- The label field is the threshold function of the score field. -/
lemma mkVerdict_label_eq (w : String) :
    (mkVerdict w).label = labelOf (mkVerdict w).score :=
  @Eq.refl String (labelOf (ruleSum (baseVerdict w)))

/-- The score is bounded by the sum 5+3+2+2+2+3+4 of the rules. -/
lemma mkVerdict_score_le (w : String) : (mkVerdict w).score ≤ 21 := by
  rw [mkVerdict_score_eq]
  split_ifs <;> omega

end

/-! ## Helper lemmas -/

lemma pyStrip_eq_empty (s : String) (h : ∀ c ∈ s.data, isPySpace c = true) :
    pyStrip s = "" := by
  have h1 : s.data.dropWhile isPySpace = [] := by
    rw [List.dropWhile_eq_nil_iff]
    intro c hc
    exact h c hc
  unfold pyStrip pyStripList
  rw [h1]
  rfl

/-! ## Claims -/

/-- **C1** (code_bug): the spec's design principle is that `check_url`
never fails on non-empty input, but on the non-empty, non-whitespace
input `"http://[a"` the `urlparse` call inside `normalize_url` raises
`ValueError("Invalid IPv6 URL")` (unbalanced bracket in the authority),
which nothing in `check_url` catches: the exception escapes and no
verdict is produced. -/
theorem check_url_raises_on_unbalanced_bracket :
    check_url "http://[a" = CheckResult.raised "Invalid IPv6 URL" := by decide

/-- **C2**: for every input that is empty or whitespace-only (so that
Python's `u.strip()` leaves the empty string), `check_url` returns the
distinguished error dictionary with its fixed non-empty message — never
a `Verdict`.  The error branch returns before `normalize_url` is
applied, so normalization is not run on such input. -/
theorem check_url_empty_input (s : String) (h : ∀ c ∈ s.data, isPySpace c = true) :
    check_url s = CheckResult.inputError "No URL entered... try again." ∧
      "No URL entered... try again." ≠ "" := by
  refine ⟨?_, by decide⟩
  unfold check_url
  rw [pyStrip_eq_empty s h]
  rfl

/-- Witness for C2 at the whitespace-only input `"   "`. -/
theorem check_url_empty_input_witness :
    check_url "   " = CheckResult.inputError "No URL entered... try again." ∧
      "No URL entered... try again." ≠ "" :=
  check_url_empty_input "   " (by decide)

/-- **C3**: whenever `check_url` produces a verdict, its score is in
`[0, 21]` (`score` is a `Nat`, so `0 ≤ score` holds by type) and the
label is exactly determined by the fixed thresholds: `score ≥ 8` gives
the high-risk label, `4 ≤ score < 8` the suspicious label, `score < 4`
the seems-ok label.  (Non-empty inputs whose parse raises — see C1 —
produce no verdict at all.) -/
theorem check_url_score_range_label (u : String) (v : Verdict)
    (h : check_url u = CheckResult.verdict v) :
    v.score ≤ 21 ∧
    (8 ≤ v.score → v.label = "⚠️ HIGH RISK: Probably PHISHING") ∧
    (4 ≤ v.score ∧ v.score < 8 → v.label = "❗ Suspicious") ∧
    (v.score < 4 → v.label = "✅ Seems OK") := by
  simp only [check_url] at h
  split at h
  · exact absurd h (by simp)
  · split at h
    · exact absurd h (by simp)
    · injection h with h
      subst h
      refine ⟨mkVerdict_score_le _, ?_, ?_, ?_⟩
      · intro h8
        rw [mkVerdict_label_eq]
        unfold labelOf
        rw [if_pos h8]
      · rintro ⟨h4, h8⟩
        rw [mkVerdict_label_eq]
        unfold labelOf
        rw [if_neg (by omega), if_pos h4]
      · intro h4
        rw [mkVerdict_label_eq]
        unfold labelOf
        rw [if_neg (by omega), if_neg (by omega)]

/-- Witness for C3: `check_url "a"` produces a verdict and the theorem
applies to it. -/
theorem check_url_score_range_label_witness :
    (Verdict.mk "http://a" false [] false false 8 0 (⟨4, 11⟩, some "apple.com")
      2 "✅ Seems OK").score ≤ 21 :=
  (check_url_score_range_label "a"
    (Verdict.mk "http://a" false [] false false 8 0 (⟨4, 11⟩, some "apple.com")
      2 "✅ Seems OK") (by decide)).1

/-- **C4**: whenever `check_url` produces a verdict, its score is the
sum of the seven independently additive rules — no early exit, no
mutual exclusion: +5 for the IP-literal flag, +3 for a non-empty
matched-word list, +2 for non-secure transport, +2 for the
symbol-density flag, +2 for normalized length over 100, +3 for more
than 3 subdomain labels, and +4 when the best similarity ratio exceeds
0.85 and the matched safe domain is not a literal substring of the
normalized URL. -/
theorem check_url_score_is_rule_sum (u : String) (v : Verdict)
    (h : check_url u = CheckResult.verdict v) :
    v.score =
      (if v.ip_in_url then 5 else 0) + (if v.bad_words ≠ [] then 3 else 0) +
      (if ¬ v.https then 2 else 0) + (if v.crazy_chars then 2 else 0) +
      (if 100 < v.len then 2 else 0) + (if 3 < v.subs then 3 else 0) +
      (if similaritySignal v.original v.closest_match.1 v.closest_match.2
        then 4 else 0) := by
  simp only [check_url] at h
  split at h
  · exact absurd h (by simp)
  · split at h
    · exact absurd h (by simp)
    · injection h with h
      subst h
      exact mkVerdict_score_eq _

/-- Witness for C4: the rule sum evaluates to the recorded score 2
(insecure transport +2) on the verdict of `check_url "b"`. -/
theorem check_url_score_is_rule_sum_witness :
    (Verdict.mk "http://b" false [] false false 8 0 (⟨4, 12⟩, some "github.com")
      2 "✅ Seems OK").score = 2 := by
  have h := check_url_score_is_rule_sum "b"
    (Verdict.mk "http://b" false [] false false 8 0 (⟨4, 12⟩, some "github.com")
      2 "✅ Seems OK") (by decide)
  rw [h]
  decide

/-- **C8**: `check_url` is deterministic — it is a pure function of its
input (the source consults no clock, randomness or mutable state), so
two runs on the same input agree on every verdict field. -/
theorem check_url_deterministic (u : String) (v₁ v₂ : Verdict)
    (h₁ : check_url u = CheckResult.verdict v₁)
    (h₂ : check_url u = CheckResult.verdict v₂) :
    v₁.original = v₂.original ∧ v₁.ip_in_url = v₂.ip_in_url ∧
    v₁.bad_words = v₂.bad_words ∧ v₁.crazy_chars = v₂.crazy_chars ∧
    v₁.https = v₂.https ∧ v₁.len = v₂.len ∧ v₁.subs = v₂.subs ∧
    v₁.closest_match = v₂.closest_match ∧ v₁.score = v₂.score ∧
    v₁.label = v₂.label := by
  rw [h₁] at h₂
  injection h₂ with h
  subst h
  exact ⟨rfl, rfl, rfl, rfl, rfl, rfl, rfl, rfl, rfl, rfl⟩

/-- Witness for C8 at the concrete input `"http://paypal.com/account"`
(the spec's Scenario A verdict: score 5, suspicious). -/
theorem check_url_deterministic_witness :
    (Verdict.mk "http://paypal.com/account" false ["account"] false false 25 0
      (⟨20, 20⟩, some "paypal.com") 5 "❗ Suspicious").score =
    (Verdict.mk "http://paypal.com/account" false ["account"] false false 25 0
      (⟨20, 20⟩, some "paypal.com") 5 "❗ Suspicious").score :=
  (check_url_deterministic "http://paypal.com/account"
    (Verdict.mk "http://paypal.com/account" false ["account"] false false 25 0
      (⟨20, 20⟩, some "paypal.com") 5 "❗ Suspicious")
    (Verdict.mk "http://paypal.com/account" false ["account"] false false 25 0
      (⟨20, 20⟩, some "paypal.com") 5 "❗ Suspicious")
    (by decide) (by decide)).2.2.2.2.2.2.2.2.1

/-! ## Characterizing the IP regular expression (claims C5 and C10) -/

/-- One group `\d{1,3}` of the pattern: one to three ASCII digits. -/
def IsDigitGroup (g : List Char) : Prop :=
  1 ≤ g.length ∧ g.length ≤ 3 ∧ ∀ c ∈ g, c.isDigit = true

/-- The string contains, at some position, `http://` or `https://`
immediately followed by four dot-separated groups of one to three
digits (possibly followed by anything, including more digits). -/
def ContainsIpPattern (u : String) : Prop :=
  ∃ (pre sch g1 g2 g3 g4 rest : List Char),
    (sch = "http://".data ∨ sch = "https://".data) ∧
    IsDigitGroup g1 ∧ IsDigitGroup g2 ∧ IsDigitGroup g3 ∧ IsDigitGroup g4 ∧
    u.data = pre ++ (sch ++ (g1 ++ '.' :: (g2 ++ '.' :: (g3 ++ '.' :: (g4 ++ rest)))))

lemma leadingDigits_append_dot (g r : List Char) (h : ∀ c ∈ g, c.isDigit = true) :
    leadingDigits (g ++ '.' :: r) = g.length := by
  induction g with
  | nil => simp [leadingDigits]
  | cons c t ih =>
    have hc : c.isDigit = true := h c (List.mem_cons_self c t)
    simp only [List.cons_append, leadingDigits, hc, if_true, List.append_eq]
    rw [ih (fun x hx => h x (List.mem_cons_of_mem c hx))]
    simp

lemma leadingDigits_pos (c : Char) (t : List Char) (h : c.isDigit = true) :
    1 ≤ leadingDigits (c :: t) := by
  simp [leadingDigits, h]

lemma eatGroupDot_append (g r : List Char) (hg : IsDigitGroup g) :
    eatGroupDot (g ++ '.' :: r) = some r := by
  obtain ⟨h1, h3, hd⟩ := hg
  unfold eatGroupDot
  rw [leadingDigits_append_dot g r hd]
  rw [if_pos ⟨h1, h3⟩]
  rw [List.drop_left]
  rfl

lemma ipQuadAt_of_groups (g1 g2 g3 g4 rest : List Char)
    (h1 : IsDigitGroup g1) (h2 : IsDigitGroup g2) (h3 : IsDigitGroup g3)
    (h4 : IsDigitGroup g4) :
    ipQuadAt (g1 ++ '.' :: (g2 ++ '.' :: (g3 ++ '.' :: (g4 ++ rest)))) = true := by
  unfold ipQuadAt
  rw [eatGroupDot_append g1 _ h1]
  dsimp only
  rw [eatGroupDot_append g2 _ h2]
  dsimp only
  rw [eatGroupDot_append g3 _ h3]
  dsimp only
  obtain ⟨hl1, _, hd⟩ := h4
  obtain ⟨c, t, rfl⟩ : ∃ c t, g4 = c :: t := by
    cases g4 with
    | nil => simp at hl1
    | cons c t => exact ⟨c, t, rfl⟩
  simpa using leadingDigits_pos c (t ++ rest) (hd c (List.mem_cons_self c t))

lemma matchSchemeIpAt_http (t : List Char) (h : ipQuadAt t = true) :
    matchSchemeIpAt ("http://".data ++ t) = true := by
  unfold matchSchemeIpAt
  have h7 : ("http://".data ++ t).take 7 = "http://".data :=
    List.take_left' (by decide)
  have h7' : ("http://".data ++ t).drop 7 = t :=
    List.drop_left' (by decide)
  rw [h7, h7', h]
  simp

lemma matchSchemeIpAt_https (t : List Char) (h : ipQuadAt t = true) :
    matchSchemeIpAt ("https://".data ++ t) = true := by
  unfold matchSchemeIpAt
  have h8 : ("https://".data ++ t).take 8 = "https://".data :=
    List.take_left' (by decide)
  have h8' : ("https://".data ++ t).drop 8 = t :=
    List.drop_left' (by decide)
  rw [h8, h8', h]
  simp

lemma searchIp_append (pre s : List Char) (h : matchSchemeIpAt s = true) :
    searchIp (pre ++ s) = true := by
  induction pre with
  | nil =>
    cases s with
    | nil => exact absurd h (by decide)
    | cons c t => simp only [List.nil_append, searchIp, h, Bool.true_or]
  | cons c pre ih =>
    simp only [List.cons_append, searchIp, List.append_eq, ih, Bool.or_true]

/-- **C10**: the IP detector performs no numeric range validation:
whenever the text contains `http://` or `https://` immediately followed
by four dot-separated groups of one to three digits, `looks_like_ip`
returns `true`, even when a group exceeds 255. -/
theorem looks_like_ip_no_range_check (u : String) (h : ContainsIpPattern u) :
    looks_like_ip u = true := by
  obtain ⟨pre, sch, g1, g2, g3, g4, rest, hsch, h1, h2, h3, h4, hu⟩ := h
  unfold looks_like_ip
  rw [hu]
  have hm : matchSchemeIpAt
      (sch ++ (g1 ++ '.' :: (g2 ++ '.' :: (g3 ++ '.' :: (g4 ++ rest))))) = true := by
    rcases hsch with hh | hh
    · subst hh
      exact matchSchemeIpAt_http _ (ipQuadAt_of_groups g1 g2 g3 g4 rest h1 h2 h3 h4)
    · subst hh
      exact matchSchemeIpAt_https _ (ipQuadAt_of_groups g1 g2 g3 g4 rest h1 h2 h3 h4)
  exact searchIp_append pre _ hm

/-- Witness for C10: `"http://999.999.999.999/"` — every group exceeds
255, yet the detector flags it. -/
theorem looks_like_ip_no_range_check_witness :
    looks_like_ip "http://999.999.999.999/" = true :=
  looks_like_ip_no_range_check "http://999.999.999.999/"
    ⟨[], "http://".data, "999".data, "999".data, "999".data, "999".data, "/".data,
      Or.inl rfl, ⟨by decide, by decide, by decide⟩, ⟨by decide, by decide, by decide⟩,
      ⟨by decide, by decide, by decide⟩, ⟨by decide, by decide, by decide⟩, by decide⟩

/-! ### Inversion lemmas for the regular-expression search (claim C5) -/

lemma take_leadingDigits_digits (l : List Char) :
    ∀ c ∈ l.take (leadingDigits l), c.isDigit = true := by
  induction l with
  | nil => intro c hc; simp at hc
  | cons x t ih =>
    intro c hc
    by_cases hx : x.isDigit = true
    · simp only [leadingDigits, hx, if_true, List.take_succ_cons] at hc
      rcases List.mem_cons.mp hc with h | h
      · exact h ▸ hx
      · exact ih c h
    · simp only [leadingDigits, hx, if_false, Bool.false_eq_true, List.take_zero] at hc
      simp at hc

lemma eatGroupDot_inv (l r : List Char) (h : eatGroupDot l = some r) :
    ∃ g, l = g ++ '.' :: r ∧ IsDigitGroup g := by
  unfold eatGroupDot at h
  split at h
  · rename_i hd
    revert h
    split
    · rename_i r' hdrop
      intro h
      injection h with h
      subst h
      have hlt : leadingDigits l < l.length := by
        by_contra hc
        push_neg at hc
        rw [List.drop_eq_nil_of_le hc] at hdrop
        exact absurd hdrop (by simp)
      have hlen : (l.take (leadingDigits l)).length = leadingDigits l := by
        rw [List.length_take]
        omega
      refine ⟨l.take (leadingDigits l), ?_, ?_, ?_, take_leadingDigits_digits l⟩
      · conv_lhs => rw [← List.take_append_drop (leadingDigits l) l]
        rw [hdrop]
      · omega
      · omega
    · intro h
      exact absurd h (by simp)
  · exact absurd h (by simp)

lemma leadingDigits_pos_inv (l : List Char) (h : 1 ≤ leadingDigits l) :
    ∃ c t, l = c :: t ∧ c.isDigit = true := by
  cases l with
  | nil => simp [leadingDigits] at h
  | cons c t =>
    by_cases hc : c.isDigit = true
    · exact ⟨c, t, rfl, hc⟩
    · simp [leadingDigits, hc] at h

lemma ipQuadAt_inv (t : List Char) (h : ipQuadAt t = true) :
    ∃ g1 g2 g3 g4 rest,
      IsDigitGroup g1 ∧ IsDigitGroup g2 ∧ IsDigitGroup g3 ∧ IsDigitGroup g4 ∧
      t = g1 ++ '.' :: (g2 ++ '.' :: (g3 ++ '.' :: (g4 ++ rest))) := by
  unfold ipQuadAt at h
  cases h1 : eatGroupDot t with
  | none => rw [h1] at h; simp at h
  | some t1 =>
  rw [h1] at h
  dsimp only at h
  cases h2 : eatGroupDot t1 with
  | none => rw [h2] at h; simp at h
  | some t2 =>
  rw [h2] at h
  dsimp only at h
  cases h3 : eatGroupDot t2 with
  | none => rw [h3] at h; simp at h
  | some t3 =>
  rw [h3] at h
  dsimp only at h
  obtain ⟨g1, e1, d1⟩ := eatGroupDot_inv t t1 h1
  obtain ⟨g2, e2, d2⟩ := eatGroupDot_inv t1 t2 h2
  obtain ⟨g3, e3, d3⟩ := eatGroupDot_inv t2 t3 h3
  have h4 : 1 ≤ leadingDigits t3 := by simpa using h
  obtain ⟨c, t', e4, hc⟩ := leadingDigits_pos_inv t3 h4
  refine ⟨g1, g2, g3, [c], t', d1, d2, d3, ⟨by simp, by simp, ?_⟩, ?_⟩
  · intro x hx
    rcases List.mem_singleton.mp hx with rfl
    exact hc
  · rw [e1, e2, e3, e4]
    simp

lemma matchSchemeIpAt_inv (s : List Char) (h : matchSchemeIpAt s = true) :
    ∃ sch t, (sch = "http://".data ∨ sch = "https://".data) ∧
      s = sch ++ t ∧ ipQuadAt t = true := by
  unfold matchSchemeIpAt at h
  rcases Bool.or_eq_true_iff.mp h with h' | h'
  · obtain ⟨ht, hq⟩ := Bool.and_eq_true_iff.mp h'
    refine ⟨"http://".data, s.drop 7, Or.inl rfl, ?_, hq⟩
    conv_lhs => rw [← List.take_append_drop 7 s]
    rw [of_decide_eq_true ht]
  · obtain ⟨ht, hq⟩ := Bool.and_eq_true_iff.mp h'
    refine ⟨"https://".data, s.drop 8, Or.inr rfl, ?_, hq⟩
    conv_lhs => rw [← List.take_append_drop 8 s]
    rw [of_decide_eq_true ht]

lemma searchIp_inv (l : List Char) (h : searchIp l = true) :
    ∃ pre s, l = pre ++ s ∧ matchSchemeIpAt s = true := by
  induction l with
  | nil => simp [searchIp] at h
  | cons c rest ih =>
    rw [searchIp] at h
    rcases Bool.or_eq_true_iff.mp h with h' | h'
    · exact ⟨[], c :: rest, rfl, h'⟩
    · obtain ⟨pre, s, he, hm⟩ := ih h'
      exact ⟨c :: pre, s, by rw [he, List.cons_append], hm⟩

/-! ### Claim C5: what the detector actually accepts -/

/-- The part of the string after the first `://`, if any. -/
def afterSchemeDelim : List Char → Option (List Char)
  | ':' :: '/' :: '/' :: r => some r
  | _ :: r => afterSchemeDelim r
  | [] => none

/-- The whole list is exactly `(\d{1,3}\.){3}\d{1,3}` — four
dot-separated groups of one to three digits and nothing else. -/
def isDottedQuad (l : List Char) : Bool :=
  match eatGroupDot l with
  | none => false
  | some t1 =>
    match eatGroupDot t1 with
    | none => false
    | some t2 =>
      match eatGroupDot t2 with
      | none => false
      | some t3 =>
        decide (1 ≤ t3.length) && decide (t3.length ≤ 3) && t3.all Char.isDigit

/-- The claim's reading of `looks_like_ip`: the host portion (what
immediately follows the scheme delimiter, up to the next `/`) is a
dotted-quad IPv4 pattern. -/
def hostIsDottedQuad (u : String) : Bool :=
  match afterSchemeDelim u.data with
  | some r => isDottedQuad (r.takeWhile (· ≠ '/'))
  | none => false

/-- **C5** (counterexample): on the normalized URL
`"http://1.2.3.4567"` the host is `1.2.3.4567`, which is not a
dotted-quad (its last group has four digits), yet `looks_like_ip`
returns `true` — the unanchored `re.search` happily matches the prefix
`http://1.2.3.456` of the host.  So the detector is not equivalent to
"the host portion matches a dotted-quad pattern". -/
theorem looks_like_ip_not_host_anchored :
    looks_like_ip "http://1.2.3.4567" = true ∧
    hostIsDottedQuad "http://1.2.3.4567" = false ∧
    normalize_url "http://1.2.3.4567" = Except.ok "http://1.2.3.4567" :=
  ⟨by decide, by decide, by rfl⟩

/-- **C5** (amended): `looks_like_ip` returns `true` iff the string
contains, at any position, `http://` or `https://` immediately followed
by four dot-separated groups of one to three digits — a prefix of a
longer final group counts, an occurrence inside the path counts, and
IPv6 literals are never detected.  (The detector is a pure substring
search, not a host check.) -/
theorem looks_like_ip_iff_contains_pattern (u : String) :
    looks_like_ip u = true ↔ ContainsIpPattern u := by
  constructor
  · intro h
    obtain ⟨pre, s, he, hm⟩ := searchIp_inv u.data h
    obtain ⟨sch, t, hsch, hs, hq⟩ := matchSchemeIpAt_inv s hm
    obtain ⟨g1, g2, g3, g4, rest, d1, d2, d3, d4, ht⟩ := ipQuadAt_inv t hq
    refine ⟨pre, sch, g1, g2, g3, g4, rest, hsch, d1, d2, d3, d4, ?_⟩
    rw [he, hs, ht]
  · intro h
    obtain ⟨pre, sch, g1, g2, g3, g4, rest, hsch, h1, h2, h3, h4, hu⟩ := h
    unfold looks_like_ip
    rw [hu]
    have hm : matchSchemeIpAt
        (sch ++ (g1 ++ '.' :: (g2 ++ '.' :: (g3 ++ '.' :: (g4 ++ rest))))) = true := by
      rcases hsch with hh | hh
      · subst hh
        exact matchSchemeIpAt_http _ (ipQuadAt_of_groups g1 g2 g3 g4 rest h1 h2 h3 h4)
      · subst hh
        exact matchSchemeIpAt_https _ (ipQuadAt_of_groups g1 g2 g3 g4 rest h1 h2 h3 h4)
    exact searchIp_append pre _ hm

/-- Witness for the amended C5 at a concrete input: the characterization
instantiated at `"https://10.0.0.1/x"`. -/
theorem looks_like_ip_iff_contains_pattern_witness :
    looks_like_ip "https://10.0.0.1/x" = true :=
  (looks_like_ip_iff_contains_pattern "https://10.0.0.1/x").mpr
    ⟨[], "https://".data, "10".data, "0".data, "0".data, "1".data, "/x".data,
      Or.inr rfl, ⟨by decide, by decide, by decide⟩, ⟨by decide, by decide, by decide⟩,
      ⟨by decide, by decide, by decide⟩, ⟨by decide, by decide, by decide⟩, by decide⟩

/-! ### Claim C6: the similarity matcher's loop -/

lemma Frac.le_rfl (x : Frac) : Frac.le x x := Nat.le_refl _

lemma Frac.le_of_lt {x y : Frac} (h : Frac.lt x y) : Frac.le x y := Nat.le_of_lt h

lemma Frac.le_of_not_lt {x y : Frac} (h : ¬ Frac.lt x y) : Frac.le y x :=
  Nat.le_of_not_lt h

lemma Frac.le_trans {x y z : Frac} (hy : 0 < y.den)
    (h1 : Frac.le x y) (h2 : Frac.le y z) : Frac.le x z := by
  unfold Frac.le at *
  have h1' := Nat.mul_le_mul_right z.den h1
  have h2' := Nat.mul_le_mul_right x.den h2
  have key : x.num * z.den * y.den ≤ z.num * x.den * y.den := by
    calc x.num * z.den * y.den = x.num * y.den * z.den := by ring
    _ ≤ y.num * x.den * z.den := h1'
    _ = y.num * z.den * x.den := by ring
    _ ≤ z.num * y.den * x.den := h2'
    _ = z.num * x.den * y.den := by ring
  exact Nat.le_of_mul_le_mul_right key hy

lemma Frac.lt_of_le_of_lt {x y z : Frac} (hx : 0 < x.den)
    (h1 : Frac.le x y) (h2 : Frac.lt y z) : Frac.lt x z := by
  unfold Frac.le Frac.lt at *
  have h1' := Nat.mul_le_mul_right z.den h1
  have h2' := (Nat.mul_lt_mul_right hx).mpr h2
  have key : x.num * z.den * y.den < z.num * x.den * y.den := by
    calc x.num * z.den * y.den = x.num * y.den * z.den := by ring
    _ ≤ y.num * x.den * z.den := h1'
    _ = y.num * z.den * x.den := by ring
    _ < z.num * y.den * x.den := h2'
    _ = z.num * x.den * y.den := by ring
  exact Nat.lt_of_mul_lt_mul_right key

lemma Frac.lt_trans' {x y z : Frac} (hx : 0 < x.den)
    (h1 : Frac.lt x y) (h2 : Frac.lt y z) : Frac.lt x z :=
  Frac.lt_of_le_of_lt hx (Frac.le_of_lt h1) h2

lemma simRatio_den_pos (a b : String) : 0 < (simRatio a b).den := by
  unfold simRatio
  split
  · simp
  · rename_i h
    simpa using Nat.pos_of_ne_zero h

/-- Master invariant of the `closest_real_site` loop, for any starting
accumulator with a positive-denominator score: the final score is an
upper bound of the start score and of every ratio in the list, and
either the accumulator was never beaten, or the result records the
first entry that strictly beat the start score and every earlier entry
(strict `>` comparison, so the earliest maximum wins). -/
lemma closest_fold_spec (d : String) (l : List String) :
    ∀ acc : Frac × Option String, 0 < acc.1.den →
      Frac.le acc.1 (List.foldl (closestStep d) acc l).1 ∧
      (∀ e ∈ l, Frac.le (simRatio d e) (List.foldl (closestStep d) acc l).1) ∧
      (List.foldl (closestStep d) acc l = acc ∨
        ∃ pre e post, l = pre ++ e :: post ∧
          (List.foldl (closestStep d) acc l).2 = some e ∧
          (List.foldl (closestStep d) acc l).1 = simRatio d e ∧
          (∀ e' ∈ pre, Frac.lt (simRatio d e') (simRatio d e)) ∧
          Frac.lt acc.1 (simRatio d e)) := by
  induction l with
  | nil =>
    intro acc hden
    exact ⟨Frac.le_rfl _, by simp, Or.inl rfl⟩
  | cons x t ih =>
    intro acc hden
    rw [List.foldl_cons]
    by_cases hup : Frac.lt acc.1 (simRatio d x)
    · have hstep : closestStep d acc x = (simRatio d x, some x) := by
        unfold closestStep
        rw [if_pos hup]
      rw [hstep]
      obtain ⟨ha, hb, hc⟩ := ih (simRatio d x, some x) (simRatio_den_pos d x)
      refine ⟨?_, ?_, ?_⟩
      · exact Frac.le_trans (simRatio_den_pos d x) (Frac.le_of_lt hup) ha
      · intro e he
        rcases List.mem_cons.mp he with rfl | he'
        · exact ha
        · exact hb e he'
      · rcases hc with hc | ⟨pre, e, post, hsplit, h2, h1, hpre, hacc⟩
        · right
          refine ⟨[], x, t, rfl, ?_, ?_, by simp, hup⟩
          · rw [hc]
          · rw [hc]
        · right
          refine ⟨x :: pre, e, post, by rw [hsplit, List.cons_append], h2, h1, ?_, ?_⟩
          · intro e' he'
            rcases List.mem_cons.mp he' with rfl | he''
            · exact hacc
            · exact hpre e' he''
          · exact Frac.lt_trans' hden hup hacc
    · have hstep : closestStep d acc x = acc := by
        unfold closestStep
        rw [if_neg hup]
      rw [hstep]
      obtain ⟨ha, hb, hc⟩ := ih acc hden
      refine ⟨ha, ?_, ?_⟩
      · intro e he
        rcases List.mem_cons.mp he with rfl | he'
        · exact Frac.le_trans hden (Frac.le_of_not_lt hup) ha
        · exact hb e he'
      · rcases hc with hc | ⟨pre, e, post, hsplit, h2, h1, hpre, hacc⟩
        · exact Or.inl hc
        · right
          refine ⟨x :: pre, e, post, by rw [hsplit, List.cons_append], h2, h1, ?_, hacc⟩
          intro e' he'
          rcases List.mem_cons.mp he' with rfl | he''
          · exact Frac.lt_of_le_of_lt (simRatio_den_pos d e') (Frac.le_of_not_lt hup) hacc
          · exact hpre e' he''

/-- **C6**: the matcher loop (generalized over the list it iterates, as
in the §4.4 contract `match(domain_ascii, safe_list)`) returns an upper
bound of all ratios as its score; whenever it returns an entry, that
entry is in the list, achieves the returned score, and every earlier
entry has a strictly smaller ratio (stable left-to-right iteration with
strict greater-than comparison, so on ties the earlier entry wins); on
the empty list it returns ratio `0` and an absent match rather than
failing; and an absent match can only be reported with the initial
score `0`. -/
theorem closestOverList_spec (d : String) (l : List String) :
    closestOverList d [] = (⟨0, 1⟩, none) ∧
    (∀ e ∈ l, Frac.le (simRatio d e) (closestOverList d l).1) ∧
    (∀ e, (closestOverList d l).2 = some e →
      ∃ pre post, l = pre ++ e :: post ∧
        (closestOverList d l).1 = simRatio d e ∧
        ∀ e' ∈ pre, Frac.lt (simRatio d e') (simRatio d e)) ∧
    ((closestOverList d l).2 = none → (closestOverList d l).1 = ⟨0, 1⟩) := by
  unfold closestOverList
  obtain ⟨_, hb, hc⟩ := closest_fold_spec d l (⟨0, 1⟩, none) (by simp)
  refine ⟨rfl, hb, ?_, ?_⟩
  · intro e he
    rcases hc with hc | ⟨pre, e', post, hsplit, h2, h1, hpre, _⟩
    · rw [hc] at he
      exact absurd he (by simp)
    · rw [h2] at he
      injection he with he
      subst he
      exact ⟨pre, post, hsplit, h1, hpre⟩
  · intro hnone
    rcases hc with hc | ⟨pre, e', post, hsplit, h2, h1, hpre, _⟩
    · rw [hc]
    · rw [h2] at hnone
      exact absurd hnone (by simp)

/-- Witness for C6 at the concrete domain `"paypa1.com"` against the
actual safe-domain list: the returned score bounds the ratio of the
entry `"google.com"`. -/
theorem closestOverList_spec_witness :
    Frac.le (simRatio "paypa1.com" "google.com")
      (closestOverList "paypa1.com" SAFE_DOMAINS).1 :=
  (closestOverList_spec "paypa1.com" SAFE_DOMAINS).2.1 "google.com" (by decide)

/-! ### Claim C9: the spec's Scenario B -/

/-- The verdict of a check, when one was produced. -/
def verdictOf : CheckResult → Option Verdict
  | .verdict v => some v
  | _ => none

/-- **C9** (counterexample): on Scenario B's input the symbol-density
flag is `false` — the URL contains only 3 hyphens, below the `> 5`
threshold — and the best similarity ratio is at most 0.85, so the
similarity rule contributes nothing, contrary to the claim. -/
theorem scenario_b_counterexample :
    ((verdictOf (check_url
        "https://secure-login-update.paypa1.com-verify.net/auth")).map
      Verdict.crazy_chars = some false) ∧
    ((verdictOf (check_url
        "https://secure-login-update.paypa1.com-verify.net/auth")).map
      (fun v => decide (Frac.lt ⟨85, 100⟩ v.closest_match.1)) = some false) := by
  decide

/-- **C9** (amended): on Scenario B's input the verdict has is-secure
true and matched words `["login","secure","update","verify","auth"]`
(the five words of the claim, in trigger-list order), but the
symbol-density flag is false (3 hyphens ≤ 5) and the similarity rule
does not fire: the extracted domain is `com-verify.net`, whose closest
safe entry is `apple.com` at ratio 6/23 ≤ 0.85; the total score is 3
(insecure-transport rule alone does not apply, the word rule gives +3)
and the label is the seems-ok label. -/
theorem scenario_b_amended :
    check_url "https://secure-login-update.paypa1.com-verify.net/auth" =
      CheckResult.verdict
        ⟨"https://secure-login-update.paypa1.com-verify.net/auth", false,
          ["login", "secure", "update", "verify", "auth"], false, true, 54, 2,
          (⟨6, 23⟩, some "apple.com"), 3, "✅ Seems OK"⟩ ∧
    Frac.le ⟨6, 23⟩ ⟨85, 100⟩ := by
  constructor
  · decide
  · decide

/-! ### Claim C7: idempotence of normalization on canonical URLs -/

lemma uint32_le_toNat (a b : UInt32) : a ≤ b ↔ a.toNat ≤ b.toNat := Iff.rfl

lemma char_isLower_of (c : Char) (h1 : 0x61 ≤ c.toNat) (h2 : c.toNat ≤ 0x7a) :
    c.isLower = true := by
  unfold Char.isLower
  rw [Bool.and_eq_true, decide_eq_true_iff, decide_eq_true_iff]
  exact ⟨(uint32_le_toNat _ _).mpr (by simpa using h1),
    (uint32_le_toNat _ _).mpr (by simpa using h2)⟩

lemma char_isDigit_of (c : Char) (h1 : 0x30 ≤ c.toNat) (h2 : c.toNat ≤ 0x39) :
    c.isDigit = true := by
  unfold Char.isDigit
  rw [Bool.and_eq_true, decide_eq_true_iff, decide_eq_true_iff]
  exact ⟨(uint32_le_toNat _ _).mpr (by simpa using h1),
    (uint32_le_toNat _ _).mpr (by simpa using h2)⟩

lemma char_beq_eq_false (c d : Char) (h : c.toNat ≠ d.toNat) : (c == d) = false := by
  rw [beq_eq_false_iff_ne]
  intro he
  exact h (congrArg Char.toNat he)

lemma char_toLower_eq_self (c : Char) (h : c.toNat < 65 ∨ 90 < c.toNat) :
    c.toLower = c := by
  unfold Char.toLower
  rw [if_neg]
  omega

lemma char_eq_of_toNat (c d : Char) (h : c.toNat = d.toNat) : c = d := by
  apply Char.ext
  apply UInt32.ext
  simpa [Char.toNat] using h

/-- A character allowed in a canonical (lower-case) scheme:
`a`–`z`, `0`–`9`, `+`, `-` or `.`. -/
def CanonSchemeChar (c : Char) : Prop :=
  (0x61 ≤ c.toNat ∧ c.toNat ≤ 0x7a) ∨ (0x30 ≤ c.toNat ∧ c.toNat ≤ 0x39) ∨
  c.toNat = 0x2b ∨ c.toNat = 0x2d ∨ c.toNat = 0x2e

instance (c : Char) : Decidable (CanonSchemeChar c) := by
  unfold CanonSchemeChar
  exact inferInstance

/-- The claim's "canonical form `scheme://host/path` with no query
string and no fragment", read literally: a non-empty lower-case scheme,
a host containing none of `/?#`, and a path that is empty or starts
with `/` and contains no `?` or `#`. -/
def CanonicalForm (s : String) : Prop :=
  ∃ sch host path : List Char,
    s.data = sch ++ ':' :: '/' :: '/' :: (host ++ path) ∧
    sch ≠ [] ∧
    0x61 ≤ (sch.headD ' ').toNat ∧ (sch.headD ' ').toNat ≤ 0x7a ∧
    (∀ c ∈ sch, CanonSchemeChar c) ∧
    (∀ c ∈ host, c ≠ '/' ∧ c ≠ '?' ∧ c ≠ '#') ∧
    (path = [] ∨ path.headD ' ' = '/') ∧
    (∀ c ∈ path, c ≠ '?' ∧ c ≠ '#')

/-- Canonical form restricted to where `urlparse` round-trips exactly:
additionally, host characters are printable ASCII and not `[` or `]`
(no bracket `ValueError`, no NFKC concerns), and path characters are
printable and exclude the parameter separator `;`. -/
def CanonicalFormStrict (s : String) : Prop :=
  ∃ sch host path : List Char,
    s.data = sch ++ ':' :: '/' :: '/' :: (host ++ path) ∧
    sch ≠ [] ∧
    0x61 ≤ (sch.headD ' ').toNat ∧ (sch.headD ' ').toNat ≤ 0x7a ∧
    (∀ c ∈ sch, CanonSchemeChar c) ∧
    (∀ c ∈ host, 0x21 ≤ c.toNat ∧ c.toNat ≤ 0x7e ∧
      c ≠ '/' ∧ c ≠ '?' ∧ c ≠ '#' ∧ c ≠ '[' ∧ c ≠ ']') ∧
    (path = [] ∨ path.headD ' ' = '/') ∧
    (∀ c ∈ path, 0x21 ≤ c.toNat ∧ c ≠ '?' ∧ c ≠ '#' ∧ c ≠ ';')

/-- **C7** (counterexample): `"http://h/a;b"` is in canonical form
`scheme://host/path` with no query string and no fragment, yet
`normalize_url` does not return it unchanged: `urlparse` splits the
path's `;`-parameter component (`params='b'`), which the rebuilt string
drops, giving `"http://h/a"`. -/
theorem normalize_url_drops_params :
    CanonicalForm "http://h/a;b" ∧
    normalize_url "http://h/a;b" = Except.ok "http://h/a" ∧
    normalize_url "http://h/a;b" ≠ Except.ok "http://h/a;b" := by
  have heq : normalize_url "http://h/a;b" = Except.ok "http://h/a" := by rfl
  refine ⟨⟨"http".data, ['h'], "/a;b".data, by decide, by decide, by decide, by decide,
    by decide, by decide, by decide, by decide⟩, heq, ?_⟩
  rw [heq]
  intro h
  injection h with h
  exact absurd h (by decide)

lemma firstIdx_append (p : Char → Bool) (xs : List Char) (y : Char) (ys : List Char)
    (hxs : ∀ x ∈ xs, p x = false) (hy : p y = true) :
    firstIdx p (xs ++ y :: ys) = some xs.length := by
  induction xs with
  | nil => simp [firstIdx, hy]
  | cons a t ih =>
    have ha : p a = false := hxs a (List.mem_cons_self a t)
    simp only [List.cons_append, firstIdx, ha, Bool.false_eq_true, if_false,
      List.append_eq]
    rw [ih (fun x hx => hxs x (List.mem_cons_of_mem a hx))]
    rfl

lemma takeWhile_append_all (p : Char → Bool) (xs ys : List Char)
    (h : ∀ x ∈ xs, p x = true) :
    (xs ++ ys).takeWhile p = xs ++ ys.takeWhile p := by
  induction xs with
  | nil => simp
  | cons a t ih =>
    have ha : p a = true := h a (List.mem_cons_self a t)
    simp only [List.cons_append, List.takeWhile_cons, ha, if_true]
    rw [ih (fun x hx => h x (List.mem_cons_of_mem a hx))]

lemma dropWhile_append_all (p : Char → Bool) (xs ys : List Char)
    (h : ∀ x ∈ xs, p x = true) :
    (xs ++ ys).dropWhile p = ys.dropWhile p := by
  induction xs with
  | nil => simp
  | cons a t ih =>
    have ha : p a = true := h a (List.mem_cons_self a t)
    simp only [List.cons_append, List.dropWhile_cons, ha, if_true]
    exact ih (fun x hx => h x (List.mem_cons_of_mem a hx))

lemma takeWhile_eq_self_all (p : Char → Bool) (xs : List Char)
    (h : ∀ x ∈ xs, p x = true) : xs.takeWhile p = xs := by
  have := takeWhile_append_all p xs [] h
  simpa using this

lemma dropWhile_eq_nil_all (p : Char → Bool) (xs : List Char)
    (h : ∀ x ∈ xs, p x = true) : xs.dropWhile p = [] := by
  have := dropWhile_append_all p xs [] h
  simpa using this

lemma map_self_of (f : Char → Char) (l : List Char) (h : ∀ x ∈ l, f x = x) :
    l.map f = l := by
  induction l with
  | nil => rfl
  | cons a t ih =>
    rw [List.map_cons, h a (List.mem_cons_self a t),
      ih (fun x hx => h x (List.mem_cons_of_mem a hx))]

lemma any_eq_false_all (p : Char → Bool) (l : List Char)
    (h : ∀ x ∈ l, p x = false) : l.any p = false := by
  rw [List.any_eq_false]
  intro x hx
  simp [h x hx]

lemma canonSchemeChar_ne_colon (c : Char) (h : CanonSchemeChar c) :
    (c == ':') = false := by
  apply char_beq_eq_false
  have : (':').toNat = 58 := by decide
  rw [this]
  rcases h with ⟨h1, h2⟩ | ⟨h1, h2⟩ | h | h | h <;> omega

lemma canonSchemeChar_isSchemeChar (c : Char) (h : CanonSchemeChar c) :
    isSchemeChar c = true := by
  unfold isSchemeChar
  rcases h with ⟨h1, h2⟩ | ⟨h1, h2⟩ | h | h | h
  · simp [Char.isAlpha, char_isLower_of c h1 h2]
  · simp [char_isDigit_of c h1 h2]
  · rw [char_eq_of_toNat c '+' (by rw [h]; decide)]
    decide
  · rw [char_eq_of_toNat c '-' (by rw [h]; decide)]
    decide
  · rw [char_eq_of_toNat c '.' (by rw [h]; decide)]
    decide

lemma canonSchemeChar_toLower (c : Char) (h : CanonSchemeChar c) :
    c.toLower = c := by
  apply char_toLower_eq_self
  rcases h with ⟨h1, h2⟩ | ⟨h1, h2⟩ | h | h | h <;> omega

lemma canonSchemeChar_not_unsafe (c : Char) (h : CanonSchemeChar c) :
    isUnsafeUrlByte c = false := by
  have h9 : ('\t').toNat = 9 := by decide
  have h13 : ('\r').toNat = 13 := by decide
  have h10 : ('\n').toNat = 10 := by decide
  unfold isUnsafeUrlByte
  rw [char_beq_eq_false c '\t' (by rw [h9]; rcases h with ⟨a, b⟩ | ⟨a, b⟩ | h | h | h <;> omega),
    char_beq_eq_false c '\r' (by rw [h13]; rcases h with ⟨a, b⟩ | ⟨a, b⟩ | h | h | h <;> omega),
    char_beq_eq_false c '\n' (by rw [h10]; rcases h with ⟨a, b⟩ | ⟨a, b⟩ | h | h | h <;> omega)]
  rfl

lemma not_unsafe_of_toNat (c : Char) (h : 14 ≤ c.toNat) : isUnsafeUrlByte c = false := by
  have h9 : ('\t').toNat = 9 := by decide
  have h13 : ('\r').toNat = 13 := by decide
  have h10 : ('\n').toNat = 10 := by decide
  unfold isUnsafeUrlByte
  rw [char_beq_eq_false c '\t' (by omega), char_beq_eq_false c '\r' (by omega),
    char_beq_eq_false c '\n' (by omega)]
  rfl

lemma pyUrlparse_canonical (sch host path : List Char)
    (hs0 : sch ≠ [])
    (hh1 : 0x61 ≤ (sch.headD ' ').toNat) (hh2 : (sch.headD ' ').toNat ≤ 0x7a)
    (hsch : ∀ c ∈ sch, CanonSchemeChar c)
    (hhost : ∀ c ∈ host, 0x21 ≤ c.toNat ∧ c.toNat ≤ 0x7e ∧
      c ≠ '/' ∧ c ≠ '?' ∧ c ≠ '#' ∧ c ≠ '[' ∧ c ≠ ']')
    (hp0 : path = [] ∨ path.headD ' ' = '/')
    (hpath : ∀ c ∈ path, 0x21 ≤ c.toNat ∧ c ≠ '?' ∧ c ≠ '#' ∧ c ≠ ';') :
    pyUrlparse (String.mk (sch ++ ':' :: '/' :: '/' :: (host ++ path))) =
      Except.ok ⟨sch, host, path, [], [], []⟩ := by
  obtain ⟨c0, sch', rfl⟩ : ∃ c0 sch', sch = c0 :: sch' := by
    cases sch with
    | nil => exact absurd rfl hs0
    | cons c0 sch' => exact ⟨c0, sch', rfl⟩
  simp only [List.headD_cons] at hh1 hh2
  have hstrip :
      ((c0 :: sch') ++ ':' :: '/' :: '/' :: (host ++ path)).dropWhile isC0OrSpace
        = (c0 :: sch') ++ ':' :: '/' :: '/' :: (host ++ path) := by
    rw [List.cons_append, List.dropWhile_cons, if_neg]
    simp only [isC0OrSpace, decide_eq_true_iff]
    omega
  have hfilter :
      ((c0 :: sch') ++ ':' :: '/' :: '/' :: (host ++ path)).filter
          (fun c => !isUnsafeUrlByte c)
        = (c0 :: sch') ++ ':' :: '/' :: '/' :: (host ++ path) := by
    rw [List.filter_eq_self]
    intro c hc
    simp only [List.mem_append, List.mem_cons] at hc
    have hcu : isUnsafeUrlByte c = false := by
      rcases hc with hc | hc | hc | hc | hc | hc
      · exact canonSchemeChar_not_unsafe c (hsch c (by simp [hc]))
      · subst hc; decide
      · subst hc; decide
      · subst hc; decide
      · exact not_unsafe_of_toNat c (by have := (hhost c hc).1; omega)
      · exact not_unsafe_of_toNat c (by have := (hpath c hc).1; omega)
    simp [hcu]
  have hidx : firstIdx (· == ':')
      ((c0 :: sch') ++ ':' :: '/' :: '/' :: (host ++ path)) = some (c0 :: sch').length :=
    firstIdx_append _ _ _ _
      (fun x hx => canonSchemeChar_ne_colon x (hsch x hx)) (by decide)
  have htake : ((c0 :: sch') ++ ':' :: '/' :: '/' :: (host ++ path)).take
      (c0 :: sch').length = c0 :: sch' := List.take_left _ _
  have hdropS : ((c0 :: sch') ++ ':' :: '/' :: '/' :: (host ++ path)).drop
      ((c0 :: sch').length + 1) = '/' :: '/' :: (host ++ path) := by
    have hsplit : (c0 :: sch') ++ ':' :: '/' :: '/' :: (host ++ path)
        = ((c0 :: sch') ++ [':']) ++ '/' :: '/' :: (host ++ path) := by simp
    have hlen : ((c0 :: sch') ++ [':']).length = (c0 :: sch').length + 1 := by simp
    rw [hsplit, ← hlen, List.drop_left]
  have hcond : 0 < (c0 :: sch').length ∧
      ((((c0 :: sch') ++ ':' :: '/' :: '/' :: (host ++ path))).headD ' ').isAlpha = true ∧
      ((((c0 :: sch') ++ ':' :: '/' :: '/' :: (host ++ path))).take
        (c0 :: sch').length).all isSchemeChar = true := by
    refine ⟨by simp, ?_, ?_⟩
    · rw [List.cons_append, List.headD_cons]
      simp [Char.isAlpha, char_isLower_of c0 hh1 hh2]
    · rw [htake, List.all_eq_true]
      intro x hx
      exact canonSchemeChar_isSchemeChar x (hsch x hx)
  have hsplitS : splitScheme ((c0 :: sch') ++ ':' :: '/' :: '/' :: (host ++ path))
      = (c0 :: sch', '/' :: '/' :: (host ++ path)) := by
    unfold splitScheme
    rw [hidx]
    dsimp only
    rw [if_pos hcond, htake, hdropS,
      map_self_of _ _ (fun x hx => canonSchemeChar_toLower x (hsch x hx))]
  have hpredhost : ∀ c ∈ host, (fun c => !isNetlocDelim c) c = true := by
    intro c hc
    obtain ⟨_, _, h1, h2, h3, _, _⟩ := hhost c hc
    have e1 : (c == '/') = false := beq_eq_false_iff_ne.mpr h1
    have e2 : (c == '?') = false := beq_eq_false_iff_ne.mpr h2
    have e3 : (c == '#') = false := beq_eq_false_iff_ne.mpr h3
    simp [isNetlocDelim, e1, e2, e3]
  have hnetloc : splitNetloc (host ++ path) = (host, path) := by
    unfold splitNetloc
    cases path with
    | nil =>
      rw [List.append_nil, takeWhile_eq_self_all _ _ hpredhost,
        dropWhile_eq_nil_all _ _ hpredhost]
    | cons p0 pt =>
      have hp0' : p0 = '/' := by
        rcases hp0 with h | h
        · exact absurd h (by simp)
        · simpa using h
      subst hp0'
      rw [takeWhile_append_all _ _ _ hpredhost, dropWhile_append_all _ _ _ hpredhost,
        List.takeWhile_cons, List.dropWhile_cons, if_neg (by decide), if_neg (by decide)]
      simp
  have hbrL : hasChar '[' host = false := by
    unfold hasChar
    exact any_eq_false_all _ _
      (fun c hc => beq_eq_false_iff_ne.mpr (hhost c hc).2.2.2.2.2.1)
  have hbrR : hasChar ']' host = false := by
    unfold hasChar
    exact any_eq_false_all _ _
      (fun c hc => beq_eq_false_iff_ne.mpr (hhost c hc).2.2.2.2.2.2)
  have hhash : splitOnFirst '#' path = (path, []) := by
    unfold splitOnFirst
    rw [takeWhile_eq_self_all _ _
        (fun c hc => decide_eq_true (hpath c hc).2.2.1),
      dropWhile_eq_nil_all _ _
        (fun c hc => decide_eq_true (hpath c hc).2.2.1)]
    rfl
  have hquery : splitOnFirst '?' path = (path, []) := by
    unfold splitOnFirst
    rw [takeWhile_eq_self_all _ _
        (fun c hc => decide_eq_true (hpath c hc).2.1),
      dropWhile_eq_nil_all _ _
        (fun c hc => decide_eq_true (hpath c hc).2.1)]
    rfl
  have hsemi : hasChar ';' path = false := by
    unfold hasChar
    exact any_eq_false_all _ _
      (fun c hc => beq_eq_false_iff_ne.mpr (hpath c hc).2.2.2)
  unfold pyUrlparse
  dsimp only
  rw [hstrip, hfilter, hsplitS]
  dsimp only
  rw [if_pos (show List.take 2 ('/' :: '/' :: (host ++ path)) = ['/', '/'] from rfl)]
  dsimp only [List.drop_succ_cons, List.drop_zero]
  rw [hnetloc]
  dsimp only
  rw [hbrL, hbrR]
  rw [if_neg (by simp)]
  rw [hhash]
  dsimp only
  rw [hquery]
  dsimp only
  rw [hsemi]
  rw [if_neg (by simp)]

/-- **C7** (amended): normalization is idempotent on canonical URLs
without a parameter component: for every string of the form
`scheme://host/path` with a non-empty lower-case scheme, a host of
printable ASCII characters none of which is `/?#[]`, and a path that is
empty or begins with `/` and contains none of `?`, `#` or the
parameter separator `;`, `normalize_url` returns the string unchanged.
(The counterexample shows the `;` restriction is necessary: `urlparse`
strips `;`-parameters from the path.) -/
theorem normalize_url_idempotent_canonical (s : String) (h : CanonicalFormStrict s) :
    normalize_url s = Except.ok s := by
  obtain ⟨sch, host, path, hdata, hs0, hh1, hh2, hsch, hhost, hp0, hpath⟩ := h
  have hmk : String.mk (sch ++ ':' :: '/' :: '/' :: (host ++ path)) = s := by
    rw [← hdata]
  have hparse := pyUrlparse_canonical sch host path hs0 hh1 hh2 hsch hhost hp0 hpath
  rw [hmk] at hparse
  unfold normalize_url
  rw [hparse]
  dsimp only
  rw [if_neg hs0]
  rw [hmk]

/-- Witness for the amended C7: the already-canonical URL
`"https://example.com/path"` normalizes to itself. -/
theorem normalize_url_idempotent_canonical_witness :
    normalize_url "https://example.com/path" = Except.ok "https://example.com/path" :=
  normalize_url_idempotent_canonical "https://example.com/path"
    ⟨"https".data, "example.com".data, "/path".data, by decide, by decide, by decide,
      by decide, by decide, by decide, by decide, by decide⟩
